import Mathlib

/-!
Shallow embedding of `analyze_log.py` (otterevm/node): a log analyzer that
extracts timing metrics from blockchain node debug logs.

Modelling conventions:
* Python strings are `List Char` (Unicode code points, as in Python `str`).
* Python floats are modelled by exact rationals `ℚ`; every concrete numeric
  value appearing in the verified properties is exactly representable in
  binary64, so the rational model agrees with float evaluation there.
* A raised `ValueError` is modelled by `Except.error ()`; a Python function
  that cannot raise returns plainly or in `Option`.
* `re` character classes `\d` and `\s` are modelled by their ASCII portion
  (plus the Latin-1 whitespace for `\s`); the exotic non-ASCII Unicode
  digits/spaces that Python's `re` would additionally accept do not occur in
  the log format this tool parses.
-/

deriving instance DecidableEq for Except

namespace AnalyzeLog

/-- ASCII decimal digit, modelling `\d`. -/
def isPyDigit (c : Char) : Bool := '0' ≤ c && c ≤ '9'

/-- Character class `[\d.]` used by the numeric capture groups. -/
def isDigitDot (c : Char) : Bool := isPyDigit c || c = '.'

/-- Whitespace as matched by Python's `\s` / stripped by `str.strip()`
(ASCII and Latin-1 portion). -/
def isPySpace (c : Char) : Bool :=
  c = ' ' || c = '\t' || c = '\n' || c = '\x0d' || c = '\x0b' || c = '\x0c' ||
  c = '\x1c' || c = '\x1d' || c = '\x1e' || c = '\x1f' || c = '\x85' || c = '\xa0'

/-- Python `str.strip()`: drop whitespace from both ends. -/
def pyStrip (l : List Char) : List Char :=
  ((l.dropWhile isPySpace).reverse.dropWhile isPySpace).reverse

/-- Numeric value of a digit string (as `int()` reads `\d+` captures). -/
def natOfDigits (l : List Char) : Nat :=
  l.foldl (fun acc c => 10 * acc + (c.toNat - 48)) 0

/-- Python `float()` applied to a capture of `[\d.]+`: succeeds exactly when
the string has at most one dot and at least one digit; `"1."` is `1`,
`".5"` is `1/2`, `"1.2.3"` and `"."` raise `ValueError` (modelled `none`).
Only called on non-empty strings of digits and dots. -/
def pyFloatOfRun (l : List Char) : Option ℚ :=
  let intPart := l.takeWhile isPyDigit
  match l.drop intPart.length with
  | [] => if intPart = [] then none else some (natOfDigits intPart)
  | '.' :: frac =>
      if frac.all isPyDigit ∧ (intPart ≠ [] ∨ frac ≠ []) then
        some ((natOfDigits intPart : ℚ) + (natOfDigits frac : ℚ) / 10 ^ frac.length)
      else none
  | _ => none

/-- Test whether `needle` occurs at the start of `hay`. -/
def listStartsWith : List Char → List Char → Bool
  | [], _ => true
  | _ :: _, [] => false
  | a :: as, b :: bs => if a = b then listStartsWith as bs else false

/-- Python substring containment `needle in hay`. -/
def hasSubstr (needle : List Char) : List Char → Bool
  | [] => listStartsWith needle []
  | c :: rest => listStartsWith needle (c :: rest) || hasSubstr needle rest

/-- The three duration units of the regex alternation `(ms|µs|s)`. -/
inductive DurUnit where
  | ms | us | s
deriving DecidableEq, Repr

/-- The characters each unit alternative consumes (`us` is `µs`). -/
def unitChars : DurUnit → List Char
  | .ms => ['m', 's']
  | .us => ['µ', 's']
  | .s  => ['s']

/-- Try the alternation `ms|µs|s` at the head of the input (in the regex's
alternative order), returning the unit and the remaining characters. -/
def unitFromRest : List Char → Option (DurUnit × List Char)
  | 'm' :: 's' :: r => some (.ms, r)
  | 'µ' :: 's' :: r => some (.us, r)
  | 's' :: r => some (.s, r)
  | _ => none

/-- Function `parse_time_to_ms`: strip the input, match `([\d.]+)(ms|µs|s)` at the
start (the greedy digit-dot run can never lend characters to the unit, so
taking the maximal run is exact), then convert `float(value)` to
milliseconds.  `float` on a multi-dot capture raises `ValueError`
(`Except.error ()`); an unmatched input returns `None` (`Except.ok none`). -/
def parse_time_to_ms (sIn : List Char) : Except Unit (Option ℚ) :=
  let t := pyStrip sIn
  let run := t.takeWhile isDigitDot
  if run = [] then .ok none
  else
    match unitFromRest (t.dropWhile isDigitDot) with
    | none => .ok none
    | some (u, _) =>
        match pyFloatOfRun run with
        | none => .error ()
        | some v =>
            .ok (some (match u with
              | .ms => v
              | .us => v / 1000
              | .s  => v * 1000))

/-! Section `strip_ansi_codes`: the substitution of the ANSI-escape regex
(`ESC` followed by a single byte in `@..Z` or `\..underscore`, or a CSI
sequence `[`, parameter bytes `0..?`, intermediate bytes `space../`, and a
final byte `@..~`) by the empty string. -/

/-- The escape character `\x1B`. -/
def escChar : Char := '\x1b'

/-- The character class of the first alternative after `ESC`:
`@` through `Z`, and backslash through underscore. -/
def isSingleEsc (c : Char) : Bool := ('@' ≤ c && c ≤ 'Z') || ('\\' ≤ c && c ≤ '_')

/-- CSI parameter byte: `0` through `?`. -/
def isCsiParam (c : Char) : Bool := '0' ≤ c && c ≤ '?'

/-- CSI intermediate byte: space through slash. -/
def isCsiInter (c : Char) : Bool := ' ' ≤ c && c ≤ '/'

/-- CSI final byte: `@` through `~`. -/
def isCsiFinal (c : Char) : Bool := '@' ≤ c && c ≤ '~'

/-- Match the CSI body (parameter bytes, then intermediate bytes, then one
final byte) at the head; the three classes are pairwise disjoint so the
greedy match needs no backtracking.  Returns the remainder. -/
def csiMatch (l : List Char) : Option (List Char) :=
  match (l.dropWhile isCsiParam).dropWhile isCsiInter with
  | c :: rest => if isCsiFinal c then some rest else none
  | [] => none

/-- Match the part of the ANSI regex after the initial `ESC` (either the
single-character alternative or a full CSI sequence); note `[` itself is in
neither single-character class, so the two alternatives are mutually
exclusive. -/
def ansiMatchTail : List Char → Option (List Char)
  | [] => none
  | c :: rest =>
      if isSingleEsc c then some rest
      else if c = '[' then csiMatch rest
      else none

/-- One left-to-right `re.sub` scan, with fuel: at each position, if the
regex matches, drop the match and continue after it; otherwise keep the
character.  Each step consumes at least one character, so fuel equal to the
input length always suffices. -/
def stripAnsiGo : Nat → List Char → List Char
  | _, [] => []
  | 0, l => l
  | n + 1, c :: rest =>
      if c = escChar then
        match ansiMatchTail rest with
        | some rem => stripAnsiGo n rem
        | none => c :: stripAnsiGo n rest
      else c :: stripAnsiGo n rest

/-- Function `strip_ansi_codes`: remove all ANSI escape sequences, with Python
`re.sub`'s non-overlapping left-to-right semantics. -/
def stripAnsi (l : List Char) : List Char := stripAnsiGo l.length l

/-! Section regex search: the key/value patterns of the log format -/

/-- Match `key` then whitespace, `=`, whitespace, and a non-empty greedy
digit run (the pattern `key\s*=\s*(\d+)`) at the head of `l`; returns the
captured integer. -/
def matchKeyNumAt (key l : List Char) : Option Nat :=
  if listStartsWith key l then
    match (l.drop key.length).dropWhile isPySpace with
    | '=' :: r2 =>
        let r3 := r2.dropWhile isPySpace
        let ds := r3.takeWhile isPyDigit
        if ds = [] then none else some (natOfDigits ds)
    | _ => none
  else none

/-- Python `re.search` of the pattern `key` + `\s*=\s*(\d+)`: leftmost match anywhere in `l`. -/
def searchKeyNum (key : List Char) : List Char → Option Nat
  | [] => none
  | c :: rest =>
      match matchKeyNumAt key (c :: rest) with
      | some n => some n
      | none => searchKeyNum key rest

/-- Match `elapsed\s*=\s*([\d.]+(?:ms|µs|s))` at the head of `l`, returning
the whole captured token (digit-dot run plus unit).  The unit characters
are not digits or dots, so the greedy run never needs to backtrack. -/
def matchElapsedAt (l : List Char) : Option (List Char) :=
  if listStartsWith "elapsed".data l then
    match (l.drop 7).dropWhile isPySpace with
    | '=' :: r2 =>
        let r3 := r2.dropWhile isPySpace
        let run := r3.takeWhile isDigitDot
        if run = [] then none
        else
          match unitFromRest (r3.dropWhile isDigitDot) with
          | some (u, _) => some (run ++ unitChars u)
          | none => none
    | _ => none
  else none

/-- Python `re.search` for the elapsed-duration pattern: leftmost match. -/
def searchElapsed : List Char → Option (List Char)
  | [] => none
  | c :: rest =>
      match matchElapsedAt (c :: rest) with
      | some g => some g
      | none => searchElapsed rest

/-- Match `gas_used\s*=\s*([\d.]+)([KMG]?)gas` at the head of `l`: the value
run, then optionally one magnitude character followed by `gas`, else `gas`
directly (the regex engine's backtracking on the optional group). -/
def matchGasAt (l : List Char) : Option (List Char × Option Char) :=
  if listStartsWith "gas_used".data l then
    match (l.drop 8).dropWhile isPySpace with
    | '=' :: r2 =>
        let r3 := r2.dropWhile isPySpace
        let run := r3.takeWhile isDigitDot
        if run = [] then none
        else
          match r3.dropWhile isDigitDot with
          | c :: r4 =>
              if (c = 'K' || c = 'M' || c = 'G') && listStartsWith "gas".data r4 then
                some (run, some c)
              else if listStartsWith "gas".data (c :: r4) then some (run, none)
              else none
          | [] => none
    | _ => none
  else none

/-- Python `re.search` for the gas-used pattern: leftmost match. -/
def searchGas : List Char → Option (List Char × Option Char)
  | [] => none
  | c :: rest =>
      match matchGasAt (c :: rest) with
      | some g => some g
      | none => searchGas rest

/-! Section `parse_timestamp`. -/

/-- The components captured by the anchored timestamp pattern
`(\d{4}-\d{2}-\d{2}T\d{2}:\d{2}:\d{2}\.\d+Z)`. -/
structure TsParts where
  y : Nat
  mo : Nat
  d : Nat
  hh : Nat
  mi : Nat
  ss : Nat
  frac : List Char
deriving DecidableEq, Repr

/-- Read exactly `n` digits from the head of `l`. -/
def takeDigitsExact (n : Nat) (l : List Char) : Option (Nat × List Char) :=
  let pre := l.take n
  if pre.length = n ∧ pre.all isPyDigit then some (natOfDigits pre, l.drop n)
  else none

/-- Expect a literal character at the head of `l`. -/
def expectChar (c : Char) : List Char → Option (List Char)
  | x :: r => if x = c then some r else none
  | [] => none

/-- Python `re.match` of the ISO-timestamp pattern at the start of the cleaned
line (fixed-width digit groups, separators, a greedy non-empty fractional
digit run, then `Z`). -/
def isoMatch (l : List Char) : Option TsParts := do
  let (y, r) ← takeDigitsExact 4 l
  let r ← expectChar '-' r
  let (mo, r) ← takeDigitsExact 2 r
  let r ← expectChar '-' r
  let (d, r) ← takeDigitsExact 2 r
  let r ← expectChar 'T' r
  let (hh, r) ← takeDigitsExact 2 r
  let r ← expectChar ':' r
  let (mi, r) ← takeDigitsExact 2 r
  let r ← expectChar ':' r
  let (ss, r) ← takeDigitsExact 2 r
  let r ← expectChar '.' r
  let frac := r.takeWhile isPyDigit
  if frac = [] then none
  else
    match expectChar 'Z' (r.dropWhile isPyDigit) with
    | some _ => some ⟨y, mo, d, hh, mi, ss, frac⟩
    | none => none

/-- Gregorian leap year. -/
def isLeap (y : Nat) : Bool := y % 4 = 0 && (y % 100 ≠ 0 || y % 400 = 0)

/-- Number of days in a month. -/
def daysInMonth (y m : Nat) : Nat :=
  if m = 2 then (if isLeap y then 29 else 28)
  else if m = 4 ∨ m = 6 ∨ m = 9 ∨ m = 11 then 30
  else 31

/-- Days since 1970-01-01 of a civil date (standard era-based algorithm;
all intermediate divisions act on non-negative operands for the years in
scope). -/
def daysFromCivil (y m d : Nat) : Int :=
  let y' : Int := if m ≤ 2 then (y : Int) - 1 else (y : Int)
  let era : Int := y' / 400
  let yoe : Int := y' - era * 400
  let mp : Int := ((m : Int) + 9) % 12
  let doy : Int := (153 * mp + 2) / 5 + (d : Int) - 1
  let doe : Int := yoe * 365 + yoe / 4 - yoe / 100 + doy
  era * 146097 + doe - 719468

/-- Microseconds encoded by the fractional-second digits: scaled up to six
digits, and truncated past six (`datetime.fromisoformat` behaviour). -/
def microOfFrac (frac : List Char) : Nat :=
  if frac.length ≤ 6 then natOfDigits frac * 10 ^ (6 - frac.length)
  else natOfDigits (frac.take 6)

/-- Python `datetime.fromisoformat` on the matched text (with `Z` replaced by an
explicit UTC offset): validates the field ranges, raising `ValueError` on
an out-of-range component, and otherwise denotes a UTC instant, modelled
here in milliseconds since the epoch (exact, as a rational). -/
def fromIso (p : TsParts) : Except Unit ℚ :=
  if 1 ≤ p.y ∧ 1 ≤ p.mo ∧ p.mo ≤ 12 ∧ 1 ≤ p.d ∧ p.d ≤ daysInMonth p.y p.mo ∧
      p.hh ≤ 23 ∧ p.mi ≤ 59 ∧ p.ss ≤ 59 then
    .ok (((daysFromCivil p.y p.mo p.d * 86400 +
            (p.hh : Int) * 3600 + (p.mi : Int) * 60 + (p.ss : Int)) * 1000 : Int) +
          (microOfFrac p.frac : ℚ) / 1000)
  else .error ()

/-- Function `parse_timestamp`: strip ANSI codes, match the ISO pattern at the start
of the line, and convert with `fromisoformat` (which can raise). -/
def parse_timestamp (line : List Char) : Except Unit (Option ℚ) :=
  match isoMatch (stripAnsi line) with
  | none => .ok none
  | some p =>
      match fromIso p with
      | .ok t => .ok (some t)
      | .error e => .error e

/-! Section `find_block_range`. -/

/-- A log line / log file, as read from disk. -/
abbrev Line := List Char

/-- The marker substring of block-finalisation events. -/
def markerBlockAdded : List Char := "Block added to canonical chain".data

/-- The marker substring of payload-build events. -/
def markerBuilt : List Char := "Built payload".data

/-- The marker substring of consensus-receipt events. -/
def markerReceived : List Char := "Received block from consensus engine".data

/-- The marker substring of explicit state-root-task events. -/
def markerStateRoot : List Char := "State root task finished".data

/-- Convert a gas value and its optional magnitude character to base gas
units, per the `if`/`elif` chain of `find_block_range`. -/
def gasUsedOf (v : ℚ) (u : Option Char) : ℚ :=
  if u = some 'K' then v * 1000
  else if u = some 'M' then v * 1000000
  else if u = some 'G' then v * 1000000000
  else v

/-- The non-empty block numbers one line contributes during the pre-scan:
for a block-added line with both the number and the gas pattern matched,
the block number when the converted gas strictly exceeds `min_gas`
(`float()` on a multi-dot gas capture raises). -/
def rangeBlocksOfLine (min_gas : ℚ) (line : Line) : Except Unit (List Int) :=
  if hasSubstr markerBlockAdded (stripAnsi line) then
    match searchKeyNum "number".data (stripAnsi line) with
    | some n =>
        match searchGas (stripAnsi line) with
        | some (run, u) =>
            match pyFloatOfRun run with
            | none => .error ()
            | some v => .ok (if gasUsedOf v u > min_gas then [(n : Int)] else [])
        | none => .ok []
    | none => .ok []
  else .ok []

/-- The ordered list of non-empty block numbers accumulated by the pre-scan
over the whole log (duplicates preserved, file order). -/
def nonEmptyBlocksOf (min_gas : ℚ) : List Line → Except Unit (List Int)
  | [] => .ok []
  | line :: rest =>
      match rangeBlocksOfLine min_gas line with
      | .error e => .error e
      | .ok bs =>
          match nonEmptyBlocksOf min_gas rest with
          | .error e => .error e
          | .ok tl => .ok (bs ++ tl)

/-- The range policy applied to the collected non-empty block numbers:
trim one positional entry from each end when there are at least three,
keep all when there are one or two, absent when there are none. -/
def rangeOfNonEmpty : List Int → Option (Int × Int)
  | [] => none
  | b :: bs =>
      if 3 ≤ (b :: bs).length then some (b + 1, (b :: bs).getLastD 0 - 1)
      else some (b, (b :: bs).getLastD 0)

/-- Function `find_block_range`: pre-scan the log and apply the range policy
(`main` calls it with the default threshold `min_gas = 1000`). -/
def find_block_range (lines : List Line) (min_gas : ℚ) :
    Except Unit (Option (Int × Int)) :=
  match nonEmptyBlocksOf min_gas lines with
  | .error e => .error e
  | .ok bs => .ok (rangeOfNonEmpty bs)

/-! Section `parse_log_file`. -/

/-- The mutable state of the extraction pass: the four metric series and
the pending `built_payload_times` dictionary (block number to build
timestamp in epoch milliseconds). -/
structure ParseState where
  build_times : List ℚ
  explicit_state_root_times : List ℚ
  payload_to_received_times : List ℚ
  block_added_times : List ℚ
  built_payload_times : List (Int × ℚ)
deriving DecidableEq, Repr

/-- The empty initial state. -/
def initState : ParseState := ⟨[], [], [], [], []⟩

/-- Dictionary insert with overwrite (`dict[k] = v`). -/
def mapInsert (m : List (Int × ℚ)) (k : Int) (v : ℚ) : List (Int × ℚ) :=
  (k, v) :: m.filter (fun p => decide (p.1 ≠ k))

/-- Dictionary lookup (`dict[k]`, with `k in dict` as `isSome`). -/
def mapLookup (m : List (Int × ℚ)) (k : Int) : Option ℚ :=
  match m.find? (fun p => decide (p.1 = k)) with
  | some p => some p.2
  | none => none

/-- Dictionary removal (`del dict[k]`). -/
def mapErase (m : List (Int × ℚ)) (k : Int) : List (Int × ℚ) :=
  m.filter (fun p => decide (p.1 ≠ k))

/-- The in-range test `block_range is None or first <= n <= last`. -/
def inRange (br : Option (Int × Int)) (n : Int) : Bool :=
  match br with
  | none => true
  | some (lo, hi) => decide (lo ≤ n ∧ n ≤ hi)

/-- Tracking step of the `Built payload` branch: when both the parent
number and a timestamp are present and the implied block is not 1, record
the timestamp under `parent_number + 1`. -/
def builtTrack (st : ParseState) (pm : Option Nat) (ts? : Option ℚ) : ParseState :=
  match pm with
  | some pn =>
      match ts? with
      | some ts =>
          if (pn : Int) + 1 ≠ 1 then
            { st with
              built_payload_times := mapInsert st.built_payload_times ((pn : Int) + 1) ts }
          else st
      | none => st
  | none => st

/-- Elapsed step of the `Built payload` branch: when both the elapsed
token and the parent number are present and the implied block is in range,
parse the token (which can raise) and append it to `build_times`. -/
def builtElapsed (br : Option (Int × Int)) (st1 : ParseState)
    (em : Option (List Char)) (pm : Option Nat) : Except Unit ParseState :=
  match em with
  | some tok =>
      match pm with
      | some pn =>
          if inRange br ((pn : Int) + 1) then
            match parse_time_to_ms tok with
            | .error e => .error e
            | .ok none => .ok st1
            | .ok (some t) => .ok { st1 with build_times := st1.build_times ++ [t] }
          else .ok st1
      | none => .ok st1
  | none => .ok st1

/-- The `Built payload` branch: track the build timestamp under
`parent_number + 1` (skipping block 1), and independently append the
parsed elapsed time to `build_times` when the block is in range. -/
def builtBranch (br : Option (Int × Int)) (st : ParseState) (clean : List Char)
    (ts? : Option ℚ) : Except Unit ParseState :=
  builtElapsed br (builtTrack st (searchKeyNum "parent_number".data clean) ts?)
    (searchElapsed clean) (searchKeyNum "parent_number".data clean)

/-- The `Received block from consensus engine` branch: consume the pending
build timestamp for the block (skipping block 1 and out-of-range blocks)
and record the build-to-receipt latency in milliseconds. -/
def receivedBranch (br : Option (Int × Int)) (st : ParseState) (clean : List Char)
    (ts? : Option ℚ) : ParseState :=
  match searchKeyNum "number".data clean with
  | some n =>
      match ts? with
      | some ts =>
          match mapLookup st.built_payload_times (n : Int) with
          | some start =>
              if (n : Int) ≠ 1 ∧ inRange br (n : Int) = true then
                { st with
                  payload_to_received_times := st.payload_to_received_times ++ [ts - start],
                  built_payload_times := mapErase st.built_payload_times (n : Int) }
              else st
          | none => st
      | none => st
  | none => st

/-- The `State root task finished` branch: parse the elapsed token, if any,
and append it unconditionally (no block number, no range filter). -/
def stateRootBranch (st : ParseState) (clean : List Char) : Except Unit ParseState :=
  match searchElapsed clean with
  | some tok =>
      match parse_time_to_ms tok with
      | .error e => .error e
      | .ok none => .ok st
      | .ok (some t) =>
          .ok { st with explicit_state_root_times := st.explicit_state_root_times ++ [t] }
  | none => .ok st

/-- The `Block added to canonical chain` branch: append the parsed elapsed
time when both the number and the elapsed pattern match and the block is in
range. -/
def blockAddedBranch (br : Option (Int × Int)) (st : ParseState) (clean : List Char) :
    Except Unit ParseState :=
  match searchKeyNum "number".data clean with
  | some n =>
      match searchElapsed clean with
      | some tok =>
          if inRange br (n : Int) then
            match parse_time_to_ms tok with
            | .error e => .error e
            | .ok none => .ok st
            | .ok (some t) =>
                .ok { st with block_added_times := st.block_added_times ++ [t] }
          else .ok st
      | none => .ok st
  | none => .ok st

/-- Process one log line: parse the timestamp (which can raise), strip the
ANSI codes, and dispatch on the first matching marker substring. -/
def processLine (br : Option (Int × Int)) (st : ParseState) (line : Line) :
    Except Unit ParseState :=
  match parse_timestamp line with
  | .error e => .error e
  | .ok ts? =>
      let clean := stripAnsi line
      if hasSubstr markerBuilt clean then builtBranch br st clean ts?
      else if hasSubstr markerReceived clean then .ok (receivedBranch br st clean ts?)
      else if hasSubstr markerStateRoot clean then stateRootBranch st clean
      else if hasSubstr markerBlockAdded clean then blockAddedBranch br st clean
      else .ok st

/-- Run the extraction pass from a given state over a list of lines. -/
def runLines (br : Option (Int × Int)) : ParseState → List Line → Except Unit ParseState
  | st, [] => .ok st
  | st, line :: rest =>
      match processLine br st line with
      | .ok st' => runLines br st' rest
      | .error e => .error e

/-- Function `parse_log_file`: the full extraction pass from the empty state. -/
def parse_log_file (lines : List Line) (br : Option (Int × Int)) :
    Except Unit ParseState :=
  runLines br initState lines

/-! Section `compute_statistics`. -/

/-- The statistics record.  `std_dev_sq` is the square of the reported
sample standard deviation: the standard deviation itself is an irrational
square root, represented here exactly by its square (zero exactly when the
standard deviation is zero). -/
structure Stats where
  count : Nat
  mean : ℚ
  median : ℚ
  min : ℚ
  max : ℚ
  std_dev_sq : ℚ
deriving DecidableEq, Repr

/-- Python `statistics.median`: sort, take the middle element for odd length, the
average of the two middle elements for even length. -/
def pyMedian (l : List ℚ) : ℚ :=
  let s := l.insertionSort (· ≤ ·)
  let n := s.length
  if n % 2 = 1 then s.getD (n / 2) 0
  else (s.getD (n / 2 - 1) 0 + s.getD (n / 2) 0) / 2

/-- Function `compute_statistics`: `None` on an empty series; otherwise the count,
arithmetic mean, median, minimum, maximum and (squared) sample standard
deviation with Bessel's correction, zero when the count is one. -/
def compute_statistics : List ℚ → Option Stats
  | [] => none
  | x :: xs =>
      let l := x :: xs
      let n := l.length
      let m := l.sum / (n : ℚ)
      some
        { count := n
          mean := m
          median := pyMedian l
          min := xs.foldl Min.min x
          max := xs.foldl Max.max x
          std_dev_sq :=
            if 1 < n then ((l.map (fun y => (y - m) ^ 2)).sum) / ((n : ℚ) - 1)
            else 0 }

/-! Section derived helpers used to state properties. -/

/-- What one line adds to `explicit_state_root_times`, read off the dispatch
chain of `processLine`: a parseable elapsed token of a state-root line not
claimed by an earlier marker.  Depends only on the line, not on the block
range or the running state. -/
def explicitContribution (line : Line) : List ℚ :=
  let clean := stripAnsi line
  if hasSubstr markerBuilt clean then []
  else if hasSubstr markerReceived clean then []
  else if hasSubstr markerStateRoot clean then
    match searchElapsed clean with
    | some tok =>
        match parse_time_to_ms tok with
        | Except.ok (some t) => [t]
        | _ => []
    | none => []
  else []

/-- What the elapsed step of a parent-0 built-payload line adds to
`build_times`: its elapsed token, when present, parseable, and with block 1
passing the range test. -/
def buildContribution (br : Option (Int × Int)) (em : Option (List Char)) : List ℚ :=
  match em with
  | some tok =>
      if inRange br 1 = true then
        (match parse_time_to_ms tok with
         | Except.ok (some t) => [t]
         | _ => [])
      else []
  | none => []

/-! Section concrete log lines used as test vectors. -/

/-- A well-formed block-added line for block `n` with 5K gas. -/
def blockAddedLine (n : Nat) : Line :=
  ("Block added to canonical chain number=" ++ toString n ++
    " gas_used=5Kgas elapsed=3ms").data

/-- A log with four non-empty blocks 10, 11, 12, 13. -/
def c1Log4 : List Line :=
  [blockAddedLine 10, blockAddedLine 11, blockAddedLine 12, blockAddedLine 13]

/-- A block-added line with exactly 1000 gas (not above the threshold). -/
def gasLine1000 : Line :=
  "Block added to canonical chain number=3 gas_used=1000gas".data

/-- A block-added line with 1001 gas (above the threshold). -/
def gasLine1001 : Line :=
  "Block added to canonical chain number=3 gas_used=1001gas".data

/-- A block-added line with 1.001K gas (= 1001, above the threshold). -/
def gasLine1001K : Line :=
  "Block added to canonical chain number=3 gas_used=1.001Kgas".data

/-- A block-added line whose gas value has two dots: `float()` raises. -/
def gasLineBad : Line :=
  "Block added to canonical chain number=3 gas_used=1.2.3gas".data

/-- A built-payload line with `parent_number=0` (block 1) and an elapsed
token, without a timestamp. -/
def builtParent0Line : Line := "Built payload parent_number=0 elapsed=5ms".data

/-- The state after processing `builtParent0Line` with no active range. -/
def builtParent0State : ParseState := { initState with build_times := [5] }

/-- A built-payload line whose elapsed token has two dots: parsing it
raises, but only when block 6 passes the range filter. -/
def builtBadElapsedLine : Line :=
  "Built payload parent_number=5 elapsed=1.2.3ms".data

/-- A state-root line with a well-formed 4ms elapsed token. -/
def stateRootLine4 : Line := "State root task finished elapsed=4ms".data

/-- A log on which the extraction pass raises without a range but succeeds
with the range (10, 20). -/
def rangeDependentLog : List Line := [builtBadElapsedLine, stateRootLine4]

/-- A string on which ANSI stripping is not idempotent: the first pass
removes the CSI sequence, juxtaposing the leading escape with `A`. -/
def ansiNonIdem : List Char := "\x1b\x1b[mA".data

/-- A string whose stripped form is escape-free. -/
def ansiPlain : List Char := "hi\x1b[31mred".data

/-- A state-root line whose elapsed token has two dots: processing it
always raises. -/
def stateRootBadLine : Line := "State root task finished elapsed=1.2.3ms".data

/-- A log whose three non-empty entries are all block 7, producing the
inverted range (8, 6). -/
def repeatedBlockLog : List Line :=
  [blockAddedLine 7, blockAddedLine 7, blockAddedLine 7]

/-! Section helper lemmas. -/

/-- The scanning pass is the identity on escape-free text (no position can
start a match). -/
theorem stripAnsiGo_of_no_esc (n : Nat) :
    ∀ l : List Char, l.length ≤ n → (∀ c ∈ l, ¬ c = escChar) → stripAnsiGo n l = l := by
  induction n with
  | zero =>
      intro l hl _
      cases l with
      | nil => rfl
      | cons c rest => simp at hl
  | succ n ih =>
      intro l hl hesc
      cases l with
      | nil => rfl
      | cons c rest =>
          have hc : ¬ c = escChar := hesc c (List.mem_cons_self c rest)
          simp only [stripAnsiGo, if_neg hc]
          have : stripAnsiGo n rest = rest := by
            refine ih rest ?_ ?_
            · simpa using Nat.le_of_succ_le_succ hl
            · intro x hx
              exact hesc x (List.mem_cons_of_mem c hx)
          rw [this]

/-- Function `strip_ansi_codes` is the identity on escape-free text. -/
theorem stripAnsi_of_no_esc (l : List Char) (h : ∀ c ∈ l, ¬ c = escChar) :
    stripAnsi l = l :=
  stripAnsiGo_of_no_esc l.length l le_rfl h

/-- Greedy `takeWhile` over a block of matching characters followed by a
non-matching one keeps exactly the block. -/
theorem takeWhile_append_block (p : Char → Bool) (v : List Char) (c : Char)
    (w : List Char) (hall : ∀ x ∈ v, p x = true) (hc : p c = false) :
    (v ++ c :: w).takeWhile p = v := by
  induction v with
  | nil => simp [List.takeWhile_cons, hc]
  | cons a as ih =>
      have ha : p a = true := hall a (List.mem_cons_self a as)
      simp only [List.cons_append, List.takeWhile_cons, ha, if_true]
      rw [ih (fun x hx => hall x (List.mem_cons_of_mem a hx))]

/-- Greedy `dropWhile` over a block of matching characters followed by a
non-matching one drops exactly the block. -/
theorem dropWhile_append_block (p : Char → Bool) (v : List Char) (c : Char)
    (w : List Char) (hall : ∀ x ∈ v, p x = true) (hc : p c = false) :
    (v ++ c :: w).dropWhile p = c :: w := by
  induction v with
  | nil => simp [List.dropWhile_cons, hc]
  | cons a as ih =>
      have ha : p a = true := hall a (List.mem_cons_self a as)
      simp only [List.cons_append, List.dropWhile_cons, ha, if_true]
      exact ih (fun x hx => hall x (List.mem_cons_of_mem a hx))

/-- The left fold of `min` lands on one of its inputs. -/
theorem foldl_min_mem (xs : List ℚ) : ∀ x : ℚ, xs.foldl Min.min x ∈ x :: xs := by
  induction xs with
  | nil => intro x; simp
  | cons a as ih =>
      intro x
      have h := ih (Min.min x a)
      rcases List.mem_cons.mp h with h1 | h1
      · rcases min_choice x a with h2 | h2 <;> simp [List.foldl_cons, h1.trans h2]
      · simp [List.foldl_cons, List.mem_cons.mpr (Or.inr (List.mem_cons_of_mem a h1))]

/-- The left fold of `min` bounds every input from below. -/
theorem foldl_min_le (xs : List ℚ) : ∀ x : ℚ, ∀ y ∈ x :: xs, xs.foldl Min.min x ≤ y := by
  induction xs with
  | nil =>
      intro x y hy
      simp at hy
      simp [hy]
  | cons a as ih =>
      intro x y hy
      have hx : as.foldl Min.min (Min.min x a) ≤ Min.min x a :=
        ih (Min.min x a) (Min.min x a) (List.mem_cons_self _ _)
      rcases List.mem_cons.mp hy with rfl | hy1
      · exact le_trans hx (min_le_left _ _)
      · rcases List.mem_cons.mp hy1 with rfl | hy2
        · exact le_trans hx (min_le_right _ _)
        · exact ih (Min.min x a) y (List.mem_cons_of_mem _ hy2)

/-- The left fold of `max` lands on one of its inputs. -/
theorem foldl_max_mem (xs : List ℚ) : ∀ x : ℚ, xs.foldl Max.max x ∈ x :: xs := by
  induction xs with
  | nil => intro x; simp
  | cons a as ih =>
      intro x
      have h := ih (Max.max x a)
      rcases List.mem_cons.mp h with h1 | h1
      · rcases max_choice x a with h2 | h2 <;> simp [List.foldl_cons, h1.trans h2]
      · simp [List.foldl_cons, List.mem_cons.mpr (Or.inr (List.mem_cons_of_mem a h1))]

/-- The left fold of `max` bounds every input from above. -/
theorem le_foldl_max (xs : List ℚ) : ∀ x : ℚ, ∀ y ∈ x :: xs, y ≤ xs.foldl Max.max x := by
  induction xs with
  | nil =>
      intro x y hy
      simp at hy
      simp [hy]
  | cons a as ih =>
      intro x y hy
      have hx : Max.max x a ≤ as.foldl Max.max (Max.max x a) :=
        ih (Max.max x a) (Max.max x a) (List.mem_cons_self _ _)
      rcases List.mem_cons.mp hy with rfl | hy1
      · exact le_trans (le_max_left _ _) hx
      · rcases List.mem_cons.mp hy1 with rfl | hy2
        · exact le_trans (le_max_right _ _) hx
        · exact ih (Max.max x a) y (List.mem_cons_of_mem _ hy2)

/-- An inverted bound admits no block number. -/
theorem inRange_inverted (f L n : Int) (h : L < f) :
    inRange (some (f, L)) n = false := by
  simp only [inRange, decide_eq_false_iff_not, not_and, not_le]
  intro h1
  omega

/-- The tracking step only touches `built_payload_times`. -/
theorem builtTrack_fields (st : ParseState) (pm : Option Nat) (ts? : Option ℚ) :
    (builtTrack st pm ts?).build_times = st.build_times ∧
    (builtTrack st pm ts?).explicit_state_root_times = st.explicit_state_root_times ∧
    (builtTrack st pm ts?).payload_to_received_times = st.payload_to_received_times ∧
    (builtTrack st pm ts?).block_added_times = st.block_added_times := by
  unfold builtTrack
  repeat' split
  all_goals simp

/-- The elapsed step only appends to `build_times`. -/
theorem builtElapsed_fields (br : Option (Int × Int)) (st1 : ParseState)
    (em : Option (List Char)) (pm : Option Nat) (st' : ParseState)
    (h : builtElapsed br st1 em pm = Except.ok st') :
    st'.explicit_state_root_times = st1.explicit_state_root_times ∧
    st'.payload_to_received_times = st1.payload_to_received_times ∧
    st'.block_added_times = st1.block_added_times ∧
    st'.built_payload_times = st1.built_payload_times := by
  unfold builtElapsed at h
  repeat' split at h
  all_goals try (injection h with h; subst h)
  all_goals simp_all

/-- Under an inverted range the elapsed step leaves `build_times`
unchanged. -/
theorem builtElapsed_build_inverted (f L : Int) (hfl : L < f) (st1 : ParseState)
    (em : Option (List Char)) (pm : Option Nat) (st' : ParseState)
    (h : builtElapsed (some (f, L)) st1 em pm = Except.ok st') :
    st'.build_times = st1.build_times := by
  unfold builtElapsed at h
  repeat' split at h
  all_goals try (injection h with h; subst h)
  all_goals simp_all [inRange_inverted _ _ _ hfl]

/-- The built-payload branch never touches the explicit state-root series,
the payload-to-received series, or the block-added series. -/
theorem builtBranch_untouched (br : Option (Int × Int)) (st : ParseState)
    (clean : List Char) (ts? : Option ℚ) (st' : ParseState)
    (h : builtBranch br st clean ts? = Except.ok st') :
    st'.explicit_state_root_times = st.explicit_state_root_times ∧
    st'.payload_to_received_times = st.payload_to_received_times ∧
    st'.block_added_times = st.block_added_times := by
  have h1 := builtElapsed_fields _ _ _ _ _ h
  have h2 := builtTrack_fields st (searchKeyNum "parent_number".data clean) ts?
  exact ⟨h1.1.trans h2.2.1, h1.2.1.trans h2.2.2.1, h1.2.2.1.trans h2.2.2.2⟩

/-- Under an inverted range the built-payload branch also leaves
`build_times` unchanged. -/
theorem builtBranch_build_inverted (f L : Int) (hfl : L < f) (st : ParseState)
    (clean : List Char) (ts? : Option ℚ) (st' : ParseState)
    (h : builtBranch (some (f, L)) st clean ts? = Except.ok st') :
    st'.build_times = st.build_times := by
  have h1 := builtElapsed_build_inverted f L hfl _ _ _ _ h
  exact h1.trans (builtTrack_fields st (searchKeyNum "parent_number".data clean) ts?).1

/-- The elapsed step of the built-payload branch only fails by a failed
`float()` on a matched elapsed token. -/
theorem builtElapsed_error (br : Option (Int × Int)) (st1 : ParseState)
    (em : Option (List Char)) (pm : Option Nat)
    (h : builtElapsed br st1 em pm = Except.error ()) :
    ∃ tok, em = some tok ∧ parse_time_to_ms tok = Except.error () := by
  unfold builtElapsed at h
  repeat' split at h
  all_goals simp_all

/-- The built-payload branch only fails by a failed `float()` on a matched
elapsed token. -/
theorem builtBranch_error (br : Option (Int × Int)) (st : ParseState)
    (clean : List Char) (ts? : Option ℚ)
    (h : builtBranch br st clean ts? = Except.error ()) :
    ∃ tok, searchElapsed clean = some tok ∧ parse_time_to_ms tok = Except.error () :=
  builtElapsed_error _ _ _ _ h

/-- The received branch never touches the other three series. -/
theorem receivedBranch_fields (br : Option (Int × Int)) (st : ParseState)
    (clean : List Char) (ts? : Option ℚ) :
    (receivedBranch br st clean ts?).build_times = st.build_times ∧
    (receivedBranch br st clean ts?).explicit_state_root_times =
      st.explicit_state_root_times ∧
    (receivedBranch br st clean ts?).block_added_times = st.block_added_times := by
  unfold receivedBranch
  repeat' split
  all_goals simp

/-- Under an inverted range the received branch leaves the
payload-to-received series unchanged. -/
theorem receivedBranch_payload_inverted (f L : Int) (hfl : L < f) (st : ParseState)
    (clean : List Char) (ts? : Option ℚ) :
    (receivedBranch (some (f, L)) st clean ts?).payload_to_received_times =
      st.payload_to_received_times := by
  unfold receivedBranch
  repeat' split
  all_goals simp_all [inRange_inverted _ _ _ hfl]

/-- The state-root branch never touches the other three series or the
pending map. -/
theorem stateRootBranch_fields (st : ParseState) (clean : List Char) (st' : ParseState)
    (h : stateRootBranch st clean = Except.ok st') :
    st'.build_times = st.build_times ∧
    st'.payload_to_received_times = st.payload_to_received_times ∧
    st'.block_added_times = st.block_added_times ∧
    st'.built_payload_times = st.built_payload_times := by
  unfold stateRootBranch at h
  repeat' split at h
  all_goals try (injection h with h; subst h)
  all_goals simp_all

/-- The state-root branch appends exactly the parseable elapsed token of
the line, independently of the block range and the running state. -/
theorem stateRootBranch_explicit (st : ParseState) (clean : List Char) (st' : ParseState)
    (h : stateRootBranch st clean = Except.ok st') :
    st'.explicit_state_root_times = st.explicit_state_root_times ++
      (match searchElapsed clean with
       | some tok =>
           (match parse_time_to_ms tok with
            | Except.ok (some t) => [t]
            | _ => [])
       | none => []) := by
  unfold stateRootBranch at h
  repeat' split at h
  all_goals try (injection h with h; subst h)
  all_goals simp_all

/-- The state-root branch only fails by a failed `float()` on a matched
elapsed token. -/
theorem stateRootBranch_error (st : ParseState) (clean : List Char)
    (h : stateRootBranch st clean = Except.error ()) :
    ∃ tok, searchElapsed clean = some tok ∧ parse_time_to_ms tok = Except.error () := by
  unfold stateRootBranch at h
  repeat' split at h
  all_goals simp_all

/-- The block-added branch never touches the other three series or the
pending map. -/
theorem blockAddedBranch_fields (br : Option (Int × Int)) (st : ParseState)
    (clean : List Char) (st' : ParseState)
    (h : blockAddedBranch br st clean = Except.ok st') :
    st'.build_times = st.build_times ∧
    st'.explicit_state_root_times = st.explicit_state_root_times ∧
    st'.payload_to_received_times = st.payload_to_received_times ∧
    st'.built_payload_times = st.built_payload_times := by
  unfold blockAddedBranch at h
  repeat' split at h
  all_goals try (injection h with h; subst h)
  all_goals simp_all

/-- Under an inverted range the block-added branch leaves
`block_added_times` unchanged. -/
theorem blockAddedBranch_block_inverted (f L : Int) (hfl : L < f) (st : ParseState)
    (clean : List Char) (st' : ParseState)
    (h : blockAddedBranch (some (f, L)) st clean = Except.ok st') :
    st'.block_added_times = st.block_added_times := by
  unfold blockAddedBranch at h
  repeat' split at h
  all_goals try (injection h with h; subst h)
  all_goals simp_all [inRange_inverted _ _ _ hfl]

/-- The block-added branch only fails by a failed `float()` on a matched
elapsed token. -/
theorem blockAddedBranch_error (br : Option (Int × Int)) (st : ParseState)
    (clean : List Char)
    (h : blockAddedBranch br st clean = Except.error ()) :
    ∃ tok, searchElapsed clean = some tok ∧ parse_time_to_ms tok = Except.error () := by
  unfold blockAddedBranch at h
  repeat' split at h
  all_goals simp_all

/-- Whatever the block range and the running state, a successfully
processed line appends exactly its own contribution to the explicit
state-root series. -/
theorem processLine_explicit (br : Option (Int × Int)) (st : ParseState)
    (line : Line) (st' : ParseState)
    (h : processLine br st line = Except.ok st') :
    st'.explicit_state_root_times =
      st.explicit_state_root_times ++ explicitContribution line := by
  unfold processLine at h
  split at h
  · exact absurd h (by simp)
  · unfold explicitContribution
    by_cases h1 : hasSubstr markerBuilt (stripAnsi line) = true
    · rw [if_pos h1] at h
      rw [if_pos h1]
      rw [(builtBranch_untouched _ _ _ _ _ h).1]
      simp
    · rw [if_neg h1] at h
      rw [if_neg h1]
      by_cases h2 : hasSubstr markerReceived (stripAnsi line) = true
      · rw [if_pos h2] at h
        rw [if_pos h2]
        injection h with h
        subst h
        rw [(receivedBranch_fields _ _ _ _).2.1]
        simp
      · rw [if_neg h2] at h
        rw [if_neg h2]
        by_cases h3 : hasSubstr markerStateRoot (stripAnsi line) = true
        · rw [if_pos h3] at h
          rw [if_pos h3]
          exact stateRootBranch_explicit _ _ _ h
        · rw [if_neg h3] at h
          rw [if_neg h3]
          by_cases h4 : hasSubstr markerBlockAdded (stripAnsi line) = true
          · rw [if_pos h4] at h
            rw [(blockAddedBranch_fields _ _ _ _ h).2.1]
            simp
          · rw [if_neg h4] at h
            injection h with h
            subst h
            simp

/-- Under an inverted range a successfully processed line leaves the three
range-filtered series unchanged. -/
theorem processLine_inverted (f L : Int) (hfl : L < f) (st : ParseState)
    (line : Line) (st' : ParseState)
    (h : processLine (some (f, L)) st line = Except.ok st') :
    st'.build_times = st.build_times ∧
    st'.payload_to_received_times = st.payload_to_received_times ∧
    st'.block_added_times = st.block_added_times := by
  unfold processLine at h
  split at h
  · exact absurd h (by simp)
  · by_cases h1 : hasSubstr markerBuilt (stripAnsi line) = true
    · rw [if_pos h1] at h
      exact ⟨builtBranch_build_inverted f L hfl _ _ _ _ h,
        (builtBranch_untouched _ _ _ _ _ h).2.1, (builtBranch_untouched _ _ _ _ _ h).2.2⟩
    · rw [if_neg h1] at h
      by_cases h2 : hasSubstr markerReceived (stripAnsi line) = true
      · rw [if_pos h2] at h
        injection h with h
        subst h
        exact ⟨(receivedBranch_fields _ _ _ _).1,
          receivedBranch_payload_inverted f L hfl _ _ _,
          (receivedBranch_fields _ _ _ _).2.2⟩
      · rw [if_neg h2] at h
        by_cases h3 : hasSubstr markerStateRoot (stripAnsi line) = true
        · rw [if_pos h3] at h
          exact ⟨(stateRootBranch_fields _ _ _ h).1, (stateRootBranch_fields _ _ _ h).2.1,
            (stateRootBranch_fields _ _ _ h).2.2.1⟩
        · rw [if_neg h3] at h
          by_cases h4 : hasSubstr markerBlockAdded (stripAnsi line) = true
          · rw [if_pos h4] at h
            exact ⟨(blockAddedBranch_fields _ _ _ _ h).1,
              (blockAddedBranch_fields _ _ _ _ h).2.2.1,
              blockAddedBranch_block_inverted f L hfl _ _ _ h⟩
          · rw [if_neg h4] at h
            injection h with h
            subst h
            exact ⟨rfl, rfl, rfl⟩

/-- A line can only fail by a raising timestamp or by a failed `float()`
on a matched elapsed token. -/
theorem processLine_error (br : Option (Int × Int)) (st : ParseState) (line : Line)
    (h : processLine br st line = Except.error ()) :
    parse_timestamp line = Except.error () ∨
      ∃ tok, searchElapsed (stripAnsi line) = some tok ∧
        parse_time_to_ms tok = Except.error () := by
  unfold processLine at h
  split at h
  · rename_i e heq
    left
    cases e
    exact heq
  · right
    by_cases h1 : hasSubstr markerBuilt (stripAnsi line) = true
    · rw [if_pos h1] at h
      exact builtBranch_error _ _ _ _ h
    · rw [if_neg h1] at h
      by_cases h2 : hasSubstr markerReceived (stripAnsi line) = true
      · rw [if_pos h2] at h
        exact absurd h (by simp)
      · rw [if_neg h2] at h
        by_cases h3 : hasSubstr markerStateRoot (stripAnsi line) = true
        · rw [if_pos h3] at h
          exact stateRootBranch_error _ _ h
        · rw [if_neg h3] at h
          by_cases h4 : hasSubstr markerBlockAdded (stripAnsi line) = true
          · rw [if_pos h4] at h
            exact blockAddedBranch_error _ _ _ h
          · rw [if_neg h4] at h
            exact absurd h (by simp)

/-- Over a whole run the explicit state-root series is the concatenation
of the per-line contributions, independently of the block range. -/
theorem runLines_explicit (br : Option (Int × Int)) :
    ∀ (lines : List Line) (st st' : ParseState),
      runLines br st lines = Except.ok st' →
      st'.explicit_state_root_times =
        st.explicit_state_root_times ++ (lines.map explicitContribution).flatten := by
  intro lines
  induction lines with
  | nil =>
      intro st st' h
      injection h with h
      subst h
      simp
  | cons line rest ih =>
      intro st st' h
      unfold runLines at h
      split at h
      · rename_i st1 heq
        rw [ih st1 st' h, processLine_explicit _ _ _ _ heq]
        simp
      · exact absurd h (by simp)

/-- Under an inverted range a whole run leaves the three range-filtered
series unchanged. -/
theorem runLines_inverted (f L : Int) (hfl : L < f) :
    ∀ (lines : List Line) (st st' : ParseState),
      runLines (some (f, L)) st lines = Except.ok st' →
      st'.build_times = st.build_times ∧
      st'.payload_to_received_times = st.payload_to_received_times ∧
      st'.block_added_times = st.block_added_times := by
  intro lines
  induction lines with
  | nil =>
      intro st st' h
      injection h with h
      subst h
      exact ⟨rfl, rfl, rfl⟩
  | cons line rest ih =>
      intro st st' h
      unfold runLines at h
      split at h
      · rename_i st1 heq
        have h1 := processLine_inverted f L hfl _ _ _ heq
        have h2 := ih st1 st' h
        exact ⟨h2.1.trans h1.1, h2.2.1.trans h1.2.1, h2.2.2.trans h1.2.2⟩
      · exact absurd h (by simp)

/-- A raising run contains a line with a raising timestamp or a matched
elapsed token that `float()` rejects. -/
theorem runLines_error (br : Option (Int × Int)) :
    ∀ (lines : List Line) (st : ParseState),
      runLines br st lines = Except.error () →
      ∃ line ∈ lines, parse_timestamp line = Except.error () ∨
        ∃ tok, searchElapsed (stripAnsi line) = some tok ∧
          parse_time_to_ms tok = Except.error () := by
  intro lines
  induction lines with
  | nil =>
      intro st h
      exact absurd h (by simp [runLines])
  | cons line rest ih =>
      intro st h
      unfold runLines at h
      split at h
      · rename_i st1 heq
        obtain ⟨bad, hmem, hprop⟩ := ih st1 h
        exact ⟨bad, List.mem_cons_of_mem _ hmem, hprop⟩
      · rename_i e heq
        cases e
        rw [h] at heq
        exact ⟨line, List.mem_cons_self _ _, processLine_error _ _ _ heq⟩

/-- A raising pre-scan line has a matched gas value that `float()`
rejects. -/
theorem rangeBlocksOfLine_error (min_gas : ℚ) (line : Line)
    (h : rangeBlocksOfLine min_gas line = Except.error ()) :
    ∃ run u, searchGas (stripAnsi line) = some (run, u) ∧ pyFloatOfRun run = none := by
  unfold rangeBlocksOfLine at h
  by_cases hm : hasSubstr markerBlockAdded (stripAnsi line) = true
  · rw [if_pos hm] at h
    rcases hn : searchKeyNum "number".data (stripAnsi line) with _ | n
    · rw [hn] at h
      simp at h
    · rw [hn] at h
      rcases hg : searchGas (stripAnsi line) with _ | ⟨run, u⟩
      · rw [hg] at h
        simp at h
      · rw [hg] at h
        rcases hf : pyFloatOfRun run with _ | v
        · exact ⟨run, u, rfl, hf⟩
        · simp only [hf] at h
          simp at h
  · rw [if_neg hm] at h
    simp at h

/-- A Python whitespace character is not a digit or dot. -/
theorem space_not_digitDot (c : Char) (h : isPySpace c = true) : isDigitDot c = false := by
  unfold isPySpace at h
  simp only [Bool.or_eq_true, decide_eq_true_eq] at h
  rcases h with (((((((((((h|h)|h)|h)|h)|h)|h)|h)|h)|h)|h)|h) <;> subst h <;> decide

/-- A digit or dot is not Python whitespace. -/
theorem digitDot_not_space (c : Char) (h : isDigitDot c = true) : isPySpace c = false := by
  cases hs : isPySpace c
  · rfl
  · rw [space_not_digitDot c hs] at h
    exact absurd h (by simp)

/-- Dropping a satisfied-by-nothing predicate is the identity. -/
theorem dropWhile_eq_self_of_none (p : Char → Bool) (l : List Char)
    (h : ∀ c ∈ l, p c = false) : l.dropWhile p = l := by
  cases l with
  | nil => rfl
  | cons a as =>
      rw [List.dropWhile_cons, if_neg (by simp [h a (List.mem_cons_self a as)])]

/-- Python `str.strip()` is the identity on whitespace-free text. -/
theorem pyStrip_of_no_space (l : List Char) (h : ∀ c ∈ l, isPySpace c = false) :
    pyStrip l = l := by
  unfold pyStrip
  rw [dropWhile_eq_self_of_none _ _ h]
  rw [dropWhile_eq_self_of_none _ _ (fun c hc => h c (List.mem_reverse.mp hc))]
  exact List.reverse_reverse l

/-- With `parent_number = 0` the elapsed step appends to `build_times`
exactly when an elapsed token is present, block 1 is in range, and the
token parses; the pending map is untouched (as always). -/
theorem builtElapsed_parent0 (br : Option (Int × Int)) (st1 : ParseState)
    (em : Option (List Char)) (st' : ParseState)
    (h : builtElapsed br st1 em (some 0) = Except.ok st') :
    st'.built_payload_times = st1.built_payload_times ∧
    st'.build_times = st1.build_times ++ buildContribution br em := by
  rcases em with _ | tok
  · injection h with h
    subst h
    exact ⟨rfl, by simp [buildContribution]⟩
  · have hred : builtElapsed br st1 (some tok) (some 0) =
        (if inRange br 1 = true then
          match parse_time_to_ms tok with
          | .error e => .error e
          | .ok none => .ok st1
          | .ok (some t) => .ok { st1 with build_times := st1.build_times ++ [t] }
        else .ok st1) := by
      unfold builtElapsed
      simp
    rw [hred] at h
    by_cases hr : inRange br 1 = true
    · rw [if_pos hr] at h
      rcases hp : parse_time_to_ms tok with e | v
      · rw [hp] at h
        exact absurd h (by simp)
      · rcases v with _ | t
        · rw [hp] at h
          injection h with h
          subst h
          exact ⟨rfl, by simp [buildContribution, hr, hp]⟩
        · rw [hp] at h
          injection h with h
          subst h
          exact ⟨rfl, by simp [buildContribution, hr, hp]⟩
    · rw [if_neg hr] at h
      injection h with h
      subst h
      exact ⟨rfl, by simp [buildContribution, hr]⟩

/-- A raising pre-scan contains a line with a matched gas value that
`float()` rejects. -/
theorem nonEmptyBlocksOf_error (min_gas : ℚ) :
    ∀ lines : List Line,
      nonEmptyBlocksOf min_gas lines = Except.error () →
      ∃ line ∈ lines, ∃ run u,
        searchGas (stripAnsi line) = some (run, u) ∧ pyFloatOfRun run = none := by
  intro lines
  induction lines with
  | nil =>
      intro h
      exact absurd h (by simp [nonEmptyBlocksOf])
  | cons line rest ih =>
      intro h
      unfold nonEmptyBlocksOf at h
      split at h
      · rename_i e heq
        cases e
        exact ⟨line, List.mem_cons_self _ _, rangeBlocksOfLine_error _ _ heq⟩
      · split at h
        · rename_i e heq2
          cases e
          obtain ⟨bad, hmem, hprop⟩ := ih heq2
          exact ⟨bad, List.mem_cons_of_mem _ hmem, hprop⟩
        · exact absurd h (by simp)

/-! Section claim theorems. -/

/-- C1: for every log file, `find_block_range` applied to the ordered list
of non-empty block numbers returns `(first + 1, last - 1)` when the list
has at least three entries, `(first, last)` when it has one or two, and an
absent range when it is empty. -/
theorem find_block_range_trim_policy (lines : List Line) (bs : List Int)
    (h : nonEmptyBlocksOf 1000 lines = Except.ok bs) :
    find_block_range lines 1000 = Except.ok (rangeOfNonEmpty bs) ∧
    (bs = [] → rangeOfNonEmpty bs = none) ∧
    ∀ b rest, bs = b :: rest →
      (3 ≤ bs.length → rangeOfNonEmpty bs = some (b + 1, bs.getLastD 0 - 1)) ∧
      (bs.length < 3 → rangeOfNonEmpty bs = some (b, bs.getLastD 0)) := by
  refine ⟨?_, ?_, ?_⟩
  · unfold find_block_range
    rw [h]
  · rintro rfl
    rfl
  · rintro b rest rfl
    constructor
    · intro h3
      simp only [rangeOfNonEmpty, if_pos h3]
    · intro hlt
      have h3 : ¬ 3 ≤ (b :: rest).length := by omega
      simp only [rangeOfNonEmpty, if_neg h3]

/-- Witness for C1: the non-empty sequence [10, 11, 12, 13] gives range
(11, 12), [10] gives (10, 10), and the empty log gives an absent range. -/
theorem find_block_range_trim_policy_witness :
    nonEmptyBlocksOf 1000 c1Log4 = Except.ok [10, 11, 12, 13] ∧
    find_block_range c1Log4 1000 = Except.ok (some (11, 12)) ∧
    find_block_range [blockAddedLine 10] 1000 = Except.ok (some (10, 10)) ∧
    find_block_range ([] : List Line) 1000 = Except.ok none := by
  have h0 : nonEmptyBlocksOf 1000 c1Log4 = Except.ok [10, 11, 12, 13] := by
    with_unfolding_all rfl
  have h1 := (find_block_range_trim_policy c1Log4 [10, 11, 12, 13] h0).1
  exact ⟨h0, h1.trans (by with_unfolding_all rfl), by with_unfolding_all rfl,
    by with_unfolding_all rfl⟩

/-- C2 counterexample: the Built-payload line with `parent_number=0` and a
5 ms elapsed token, processed with no active range, DOES append 5.0 to
`build_times` (the claim says it contributes to neither series nor map);
only the pending-payload map is left untouched. -/
theorem built_parent0_contributes_build_times :
    parse_log_file [builtParent0Line] none = Except.ok builtParent0State ∧
    builtParent0State.build_times = [5] ∧
    builtParent0State.built_payload_times = [] := by
  exact ⟨by with_unfolding_all rfl, rfl, rfl⟩

/-- C2 (amended): a Built-payload line with `parent_number = 0` (implied
block 1) never contributes to the pending-payload map, regardless of range
or timestamp; but its elapsed token, when present and parseable, IS
appended to `buildTimes` whenever block 1 passes the range test (in
particular whenever no range is active): the block-1 exclusion applies
only to the pending-payload tracking. -/
theorem built_parent0_tracking_only (br : Option (Int × Int)) (st : ParseState)
    (line : Line) (st' : ParseState)
    (hm : hasSubstr markerBuilt (stripAnsi line) = true)
    (hp : searchKeyNum "parent_number".data (stripAnsi line) = some 0)
    (h : processLine br st line = Except.ok st') :
    st'.built_payload_times = st.built_payload_times ∧
    st'.build_times = st.build_times ++
      (match searchElapsed (stripAnsi line) with
       | some tok =>
           if inRange br 1 = true then
             (match parse_time_to_ms tok with
              | Except.ok (some t) => [t]
              | _ => [])
           else []
       | none => []) := by
  unfold processLine at h
  split at h
  · exact absurd h (by simp)
  · rename_i ts? hts
    rw [if_pos hm] at h
    unfold builtBranch at h
    rw [hp] at h
    have htrack : builtTrack st (some 0) ts? = st := by
      cases ts? with
      | none => rfl
      | some ts => simp [builtTrack]
    rw [htrack] at h
    exact builtElapsed_parent0 _ _ _ _ h

/-- Witness for C2 (amended) at the concrete parent-0 line with no active
range: the pending map is untouched and 5.0 lands in `build_times`. -/
theorem built_parent0_tracking_only_witness :
    processLine none initState builtParent0Line = Except.ok builtParent0State ∧
    builtParent0State.built_payload_times = initState.built_payload_times ∧
    builtParent0State.build_times = initState.build_times ++ [5] := by
  have h : processLine none initState builtParent0Line = Except.ok builtParent0State := by
    with_unfolding_all rfl
  have h2 := built_parent0_tracking_only none initState builtParent0Line builtParent0State
    (by decide) (by decide) h
  exact ⟨h, h2.1, by with_unfolding_all rfl⟩

/-- C3: for every valid duration token, a parseable numeric value directly
followed by a unit, `parse_time_to_ms` converts exactly: seconds times
1000, milliseconds unchanged, microseconds divided by 1000. -/
theorem parse_time_unit_conversion (v : List Char) (q : ℚ) (u : DurUnit)
    (hne : v ≠ []) (hall : ∀ c ∈ v, isDigitDot c = true)
    (hq : pyFloatOfRun v = some q) :
    parse_time_to_ms (v ++ unitChars u) =
      Except.ok (some (match u with
        | .s => q * 1000
        | .ms => q
        | .us => q / 1000)) := by
  have huc : ∀ c ∈ unitChars u, isPySpace c = false := by cases u <;> decide
  have hstrip : pyStrip (v ++ unitChars u) = v ++ unitChars u := by
    refine pyStrip_of_no_space _ ?_
    intro c hc
    rcases List.mem_append.mp hc with hv | hu
    · exact digitDot_not_space c (hall c hv)
    · exact huc c hu
  cases u with
  | ms =>
      have htake := takeWhile_append_block isDigitDot v 'm' ['s'] hall (by decide)
      have hdrop := dropWhile_append_block isDigitDot v 'm' ['s'] hall (by decide)
      simp only [unitChars] at hstrip ⊢
      simp only [parse_time_to_ms, hstrip]
      rw [htake, hdrop, if_neg hne]
      simp [unitFromRest, hq]
  | us =>
      have htake := takeWhile_append_block isDigitDot v 'µ' ['s'] hall (by decide)
      have hdrop := dropWhile_append_block isDigitDot v 'µ' ['s'] hall (by decide)
      simp only [unitChars] at hstrip ⊢
      simp only [parse_time_to_ms, hstrip]
      rw [htake, hdrop, if_neg hne]
      simp [unitFromRest, hq]
  | s =>
      have htake := takeWhile_append_block isDigitDot v 's' [] hall (by decide)
      have hdrop := dropWhile_append_block isDigitDot v 's' [] hall (by decide)
      simp only [unitChars] at hstrip ⊢
      simp only [parse_time_to_ms, hstrip]
      rw [htake, hdrop, if_neg hne]
      simp [unitFromRest, hq]

/-- Witness for C3 at the claim's three tokens: 1.5s gives 1500.0, 2.5ms
gives 2.5, 750µs gives 0.75 (in exact rationals). -/
theorem parse_time_unit_conversion_witness :
    parse_time_to_ms "1.5s".data = Except.ok (some 1500) ∧
    parse_time_to_ms "2.5ms".data = Except.ok (some (5 / 2)) ∧
    parse_time_to_ms "750µs".data = Except.ok (some (3 / 4)) := by
  have h := parse_time_unit_conversion "1.5".data (3 / 2) DurUnit.s (by decide)
    (by decide) (by with_unfolding_all rfl)
  have he : "1.5s".data = "1.5".data ++ unitChars DurUnit.s := by decide
  refine ⟨?_, by with_unfolding_all rfl, by with_unfolding_all rfl⟩
  rw [he]
  exact h.trans (by with_unfolding_all rfl)

/-- C4 counterexample: on the claim's own example of a malformed value,
`1.2.3ms`, the parser raises `ValueError` instead of returning absent
(`float` accepts the multi-dot capture of the value regex and then
rejects it); the other two claim examples do return absent. -/
theorem parse_time_raises_multidot :
    parse_time_to_ms "1.2.3ms".data = Except.error () ∧
    parse_time_to_ms "abc".data = Except.ok none ∧
    parse_time_to_ms "5xy".data = Except.ok none := by
  exact ⟨by decide, by decide, by decide⟩

/-- C4 (amended): `parse_time_to_ms` returns absent without raising on
every input that fails the value-unit pattern (such as "abc" and "5xy"),
but it raises exactly when the stripped input starts with a non-empty
digits-and-dots run directly followed by a valid unit while the run itself
is not a valid float (more than one dot, or no digit at all), as in
"1.2.3ms". -/
theorem parse_time_error_characterization (s : List Char) :
    parse_time_to_ms s = Except.error () ↔
      (pyStrip s).takeWhile isDigitDot ≠ [] ∧
      (unitFromRest ((pyStrip s).dropWhile isDigitDot)).isSome = true ∧
      pyFloatOfRun ((pyStrip s).takeWhile isDigitDot) = none := by
  simp only [parse_time_to_ms]
  rcases hu : unitFromRest ((pyStrip s).dropWhile isDigitDot) with _ | ⟨u, rest⟩ <;>
    rcases hf : pyFloatOfRun ((pyStrip s).takeWhile isDigitDot) with _ | v <;>
    by_cases hrun : (pyStrip s).takeWhile isDigitDot = [] <;>
    simp [hrun, hu, hf]

/-- C5: a block-added line seen by the range detector is classified
non-empty exactly when its gas value times 10^3 for suffix K, 10^6 for M,
10^9 for G (and 1 with no suffix) strictly exceeds 1000. -/
theorem gas_threshold_classification (line : Line) (n : Nat) (run : List Char)
    (u : Option Char) (q : ℚ)
    (hm : hasSubstr markerBlockAdded (stripAnsi line) = true)
    (hn : searchKeyNum "number".data (stripAnsi line) = some n)
    (hg : searchGas (stripAnsi line) = some (run, u))
    (hq : pyFloatOfRun run = some q) :
    rangeBlocksOfLine 1000 line =
      Except.ok
        (if q * (if u = some 'K' then (10 : ℚ) ^ 3
                 else if u = some 'M' then 10 ^ 6
                 else if u = some 'G' then 10 ^ 9
                 else 1) > 1000 then [(n : Int)] else []) := by
  have hmul : gasUsedOf q u =
      q * (if u = some 'K' then (10 : ℚ) ^ 3
           else if u = some 'M' then 10 ^ 6
           else if u = some 'G' then 10 ^ 9
           else 1) := by
    unfold gasUsedOf
    split_ifs <;> norm_num
  unfold rangeBlocksOfLine
  rw [if_pos hm]
  simp only [hn, hg, hq, hmul]

/-- Witness for C5 at the claim's boundary lines: 1000gas is not
non-empty, 1001gas is, and 1.001Kgas is. -/
theorem gas_threshold_classification_witness :
    rangeBlocksOfLine 1000 gasLine1000 = Except.ok [] ∧
    rangeBlocksOfLine 1000 gasLine1001 = Except.ok [3] ∧
    rangeBlocksOfLine 1000 gasLine1001K = Except.ok [3] := by
  refine ⟨by with_unfolding_all rfl, by with_unfolding_all rfl, ?_⟩
  have h := gas_threshold_classification gasLine1001K 3 "1.001".data (some 'K')
    (1001 / 1000) (by decide) (by decide) (by decide) (by with_unfolding_all rfl)
  exact h.trans (by with_unfolding_all rfl)

/-- C6: `compute_statistics` is absent exactly on the empty series;
otherwise it reports the length as count, the arithmetic mean, the median
of a sorted permutation (averaging the two middle entries for even
counts), the true minimum and maximum, and the squared sample standard
deviation with divisor n-1, which is exactly 0 for a single sample. -/
theorem compute_statistics_spec (l : List ℚ) :
    (compute_statistics l = none ↔ l = []) ∧
    ∀ st, compute_statistics l = some st →
      st.count = l.length ∧
      st.mean = l.sum / (l.length : ℚ) ∧
      st.min ∈ l ∧ st.max ∈ l ∧ (∀ x ∈ l, st.min ≤ x ∧ x ≤ st.max) ∧
      (∃ s : List ℚ, s.Perm l ∧ s.Sorted (· ≤ ·) ∧
        st.median = (if s.length % 2 = 1 then s.getD (s.length / 2) 0
          else (s.getD (s.length / 2 - 1) 0 + s.getD (s.length / 2) 0) / 2)) ∧
      st.std_dev_sq =
        (if 1 < l.length then
          ((l.map (fun y => (y - st.mean) ^ 2)).sum) / ((l.length : ℚ) - 1)
         else 0) ∧
      (st.count = 1 → st.std_dev_sq = 0) := by
  cases l with
  | nil =>
      refine ⟨by simp [compute_statistics], ?_⟩
      intro st h
      exact absurd h (by simp [compute_statistics])
  | cons x xs =>
      constructor
      · simp [compute_statistics]
      · intro st h
        unfold compute_statistics at h
        injection h with h
        subst h
        refine ⟨rfl, rfl, foldl_min_mem xs x, foldl_max_mem xs x, ?_, ?_, ?_, ?_⟩
        · intro y hy
          exact ⟨foldl_min_le xs x y hy, le_foldl_max xs x y hy⟩
        · refine ⟨(x :: xs).insertionSort (· ≤ ·),
            List.perm_insertionSort (· ≤ ·) (x :: xs),
            List.sorted_insertionSort (· ≤ ·) (x :: xs), ?_⟩
          rfl
        · rfl
        · intro h1
          have hx : (x :: xs).length = 1 := h1
          simp only [hx]
          norm_num

/-- Witness for C6: the empty series is absent, and the singleton series
[5.0] yields count 1, mean 5, median 5, min 5, max 5 and standard
deviation exactly 0. -/
theorem compute_statistics_spec_witness :
    compute_statistics ([] : List ℚ) = none ∧
    compute_statistics [(5 : ℚ)] = some ⟨1, 5, 5, 5, 5, 0⟩ := by
  exact ⟨(compute_statistics_spec []).1.mpr rfl, by with_unfolding_all rfl⟩

/-- C7 counterexample: on this two-line log the extraction pass returns
the explicit state-root series [4.0] under the range (10, 20) but raises
with no range active (the range filter suppresses the crashing elapsed
token of the first line), so the produced series is not identical across
range settings. -/
theorem explicit_series_range_dependent :
    parse_log_file rangeDependentLog (some (10, 20)) =
      Except.ok { initState with explicit_state_root_times := [4] } ∧
    parse_log_file rangeDependentLog none = Except.error () := by
  exact ⟨by with_unfolding_all rfl, by with_unfolding_all rfl⟩

/-- C7 (amended): whenever the extraction pass completes without raising
both under an arbitrary block range and under none, the two runs produce
the same explicit state-root series (state-root lines carry no block
number, so on non-raising runs the filter never affects this series). -/
theorem explicit_series_range_independent (lines : List Line)
    (br : Option (Int × Int)) (st1 st2 : ParseState)
    (h1 : parse_log_file lines br = Except.ok st1)
    (h2 : parse_log_file lines none = Except.ok st2) :
    st1.explicit_state_root_times = st2.explicit_state_root_times := by
  rw [runLines_explicit br lines initState st1 h1,
    runLines_explicit none lines initState st2 h2]

/-- Witness for C7 (amended) on a one-line state-root log that succeeds
under both settings with series [4.0]. -/
theorem explicit_series_range_independent_witness :
    parse_log_file [stateRootLine4] (some (10, 20)) =
      Except.ok { initState with explicit_state_root_times := [4] } ∧
    parse_log_file [stateRootLine4] none =
      Except.ok { initState with explicit_state_root_times := [4] } ∧
    ({ initState with explicit_state_root_times := [4] } : ParseState).explicit_state_root_times =
      ({ initState with explicit_state_root_times := [4] } : ParseState).explicit_state_root_times := by
  have ha : parse_log_file [stateRootLine4] (some (10, 20)) =
      Except.ok { initState with explicit_state_root_times := [4] } := by
    with_unfolding_all rfl
  have hb : parse_log_file [stateRootLine4] none =
      Except.ok { initState with explicit_state_root_times := [4] } := by
    with_unfolding_all rfl
  exact ⟨ha, hb, explicit_series_range_independent [stateRootLine4] (some (10, 20)) _ _ ha hb⟩

/-- C8 counterexample: stripping is not idempotent on the string
ESC ESC [ m A: the first pass removes the CSI sequence and leaves
ESC A, which the second pass removes entirely. -/
theorem stripAnsi_not_idempotent :
    stripAnsi (stripAnsi ansiNonIdem) ≠ stripAnsi ansiNonIdem := by decide

/-- C8 (amended): ANSI stripping is idempotent on every input whose
stripped form contains no residual escape character (in particular on all
escape-free inputs); in general a second pass can strip further, because a
removal may juxtapose an unmatched ESC with the following text to form a
new escape sequence. -/
theorem stripAnsi_idempotent_on_clean (l : List Char)
    (h : ∀ c ∈ stripAnsi l, ¬ c = escChar) :
    stripAnsi (stripAnsi l) = stripAnsi l :=
  stripAnsi_of_no_esc (stripAnsi l) h

/-- Witness for C8 (amended) on a string whose stripped form is clean. -/
theorem stripAnsi_idempotent_on_clean_witness :
    (∀ c ∈ stripAnsi ansiPlain, ¬ c = escChar) ∧
    stripAnsi (stripAnsi ansiPlain) = stripAnsi ansiPlain :=
  ⟨by decide, stripAnsi_idempotent_on_clean ansiPlain (by decide)⟩

/-- C9 counterexample: parsing does fail fatally on readable but malformed
content: a state-root line whose elapsed value has two dots raises in the
extraction pass, and a block-added line whose gas value has two dots
raises in the pre-scan. -/
theorem parse_fatal_on_multidot :
    parse_log_file [stateRootBadLine] none = Except.error () ∧
    find_block_range [gasLineBad] 1000 = Except.error () := by
  exact ⟨by decide, by decide⟩

/-- C9 (amended): malformed lines are otherwise skipped, but beyond I/O
failure the run aborts exactly on a `float()` `ValueError`: every raising
extraction run contains a line whose matched timestamp is rejected or
whose matched elapsed token fails to parse, and every raising pre-scan
contains a line whose matched gas value is not a valid float. -/
theorem parse_fatal_characterization (lines : List Line) (br : Option (Int × Int)) :
    (parse_log_file lines br = Except.error () →
      ∃ line ∈ lines, parse_timestamp line = Except.error () ∨
        ∃ tok, searchElapsed (stripAnsi line) = some tok ∧
          parse_time_to_ms tok = Except.error ()) ∧
    (find_block_range lines 1000 = Except.error () →
      ∃ line ∈ lines, ∃ run u,
        searchGas (stripAnsi line) = some (run, u) ∧ pyFloatOfRun run = none) := by
  constructor
  · intro h
    exact runLines_error br lines initState h
  · intro h
    unfold find_block_range at h
    rcases hnb : nonEmptyBlocksOf 1000 lines with e | bs
    · cases e
      exact nonEmptyBlocksOf_error 1000 lines hnb
    · rw [hnb] at h
      exact absurd h (by simp)

/-- Witness for C9 (amended) at the concrete crashing log. -/
theorem parse_fatal_characterization_witness :
    parse_log_file [stateRootBadLine] none = Except.error () ∧
    ∃ line ∈ [stateRootBadLine], parse_timestamp line = Except.error () ∨
      ∃ tok, searchElapsed (stripAnsi line) = some tok ∧
        parse_time_to_ms tok = Except.error () := by
  have h : parse_log_file [stateRootBadLine] none = Except.error () := by decide
  exact ⟨h, (parse_fatal_characterization [stateRootBadLine] none).1 h⟩

/-- C10: when the collected non-empty list has at least three entries but
first + 1 exceeds last - 1 (for instance when every entry is the same
block, as with repeated log lines for one block), `find_block_range`
returns the inverted range (first + 1, last - 1); the in-range test then
holds for no block, and any completed extraction run under that range
leaves `build_times`, `payload_to_received_times` and `block_added_times`
all empty. -/
theorem inverted_range_empty_metrics (lines0 : List Line) (bs : List Int)
    (b : Int) (rest : List Int)
    (hnb : nonEmptyBlocksOf 1000 lines0 = Except.ok bs)
    (hbs : bs = b :: rest) (h3 : 3 ≤ bs.length)
    (hinv : bs.getLastD 0 - 1 < b + 1) :
    find_block_range lines0 1000 = Except.ok (some (b + 1, bs.getLastD 0 - 1)) ∧
    (∀ n : Int, inRange (some (b + 1, bs.getLastD 0 - 1)) n = false) ∧
    (∀ (lines : List Line) (st : ParseState),
      parse_log_file lines (some (b + 1, bs.getLastD 0 - 1)) = Except.ok st →
      st.build_times = [] ∧ st.payload_to_received_times = [] ∧
      st.block_added_times = []) := by
  subst hbs
  refine ⟨?_, ?_, ?_⟩
  · unfold find_block_range
    rw [hnb]
    simp only [rangeOfNonEmpty, if_pos h3]
  · intro n
    exact inRange_inverted _ _ _ hinv
  · intro lines st h
    have h1 := runLines_inverted _ _ hinv lines initState st h
    simpa [initState] using h1

/-- Witness for C10 on the log whose three non-empty entries are all
block 7: the detected range is the inverted (8, 6) and the full run under
it produces the empty initial state. -/
theorem inverted_range_empty_metrics_witness :
    nonEmptyBlocksOf 1000 repeatedBlockLog = Except.ok [7, 7, 7] ∧
    find_block_range repeatedBlockLog 1000 = Except.ok (some (8, 6)) ∧
    parse_log_file repeatedBlockLog (some (8, 6)) = Except.ok initState ∧
    initState.build_times = [] ∧ initState.payload_to_received_times = [] ∧
    initState.block_added_times = [] := by
  have h0 : nonEmptyBlocksOf 1000 repeatedBlockLog = Except.ok [7, 7, 7] := by
    with_unfolding_all rfl
  have h := inverted_range_empty_metrics repeatedBlockLog [7, 7, 7] 7 [7, 7] h0 rfl
    (by decide) (by decide)
  have hp : parse_log_file repeatedBlockLog (some (8, 6)) = Except.ok initState := by
    with_unfolding_all rfl
  have hp' : parse_log_file repeatedBlockLog
      (some ((7 : Int) + 1, ([7, 7, 7] : List Int).getLastD 0 - 1)) = Except.ok initState := by
    with_unfolding_all rfl
  have h2 := h.2.2 repeatedBlockLog initState hp'
  exact ⟨h0, h.1.trans (by with_unfolding_all rfl), hp, h2.1, h2.2.1, h2.2.2⟩

end AnalyzeLog
